import Mathlib

/-
Verification development for `render-tmpl` (src/render-tmpl.js).

The JavaScript source is shallowly embedded as follows:

* A DOM node is `Node`: an element (with a numeric identity, a tag name, an
  ordered attribute list, an inline display style, and a child list) or a
  text node.  `cloneNode(true)` is `cloneNode`/`cloneList`, which assigns
  fresh identities from a counter.
* A render state (`Record<string, string>`) is an association list; indexing
  a missing key yields JS `undefined`, modelled as `none`.
* `replaceStateDirectives` is the composition of the three
  `querySelectorAll(...).forEach(...)` passes of the source (show, text,
  attr), each a pre-order (document-order) traversal.  The attr pass can
  throw a TypeError in the source (`.split`/`.replace` called on
  `undefined`), so it returns `Except Unit`.
* `renderTmpl` (first variant, lines 132-163) and `renderTmpl2` (second
  variant, lines 223-248) return the emitted `console.warn` log together
  with either the produced fragment or a thrown error.  The child provider
  (`subTmpl`) is modelled as a pure function of the resolved fragment and
  the state that may also report warnings it emits.
-/

namespace RenderTmpl

/-- Flat string-to-string mapping (a JS object used as `state`, and also an
element's ordered attribute list). -/
abbrev StrMap := List (String × String)

/-- Association-list lookup; `none` models JS `undefined` for a missing key
(property read on an object, or `getAttribute` on an element without the
attribute). -/
def lookupS : StrMap → String → Option String
  | [], _ => none
  | (k, v) :: rest, key => if k = key then some v else lookupS rest key

/-- Modelled from the spec: the host DOM string coercion applied to the JS
value read out of `state` when it is inserted into text content or an
attribute.  The DOM sinks (`textContent` / `setAttribute` internals) are an
external collaborator, not part of src/; the spec fixes the observable
result for a missing key to the sentinel string `"undefined"` (sections 4.2
and 7: an unset key "resolves to the display text \"undefined\" under the
reference behavior").  A present key inserts its string value unchanged. -/
def jsString : Option String → String
  | some v => v
  | none => "undefined"

/-- JS `Boolean(state[k])`: `undefined` and the empty string are falsy, any
other string is truthy. -/
def truthy : Option String → Bool
  | none => false
  | some v => v != ""

/-- The characters of the context marker `"$ctx."`. -/
def ctxPat : List Char := ['$', 'c', 't', 'x', '.']

/-- JS `str.replace(pat, "")` with a string pattern: remove the FIRST
occurrence of `pat` only (later occurrences stay). -/
def removeFirst (pat : List Char) : List Char → List Char
  | [] => []
  | c :: cs =>
    if List.isPrefixOf pat (c :: cs) then List.drop pat.length (c :: cs)
    else c :: removeFirst pat cs

/-- `clearMagic` / `clearPrefix` from the source:
`(str) => str.replace("$ctx.", "")`. -/
def clearMagic (s : String) : String := String.mk (removeFirst ctxPat s.data)

/-- The negation-marker counting loop of the show pass: count leading `'!'`
characters, stopping (`break`) at the first other character. -/
def countBangs : List Char → Nat
  | [] => 0
  | c :: rest => if c = '!' then countBangs rest + 1 else 0

/-- The show-pass computation of the new `el.style.display` value from the
raw `data-s-show` attribute value and the state. -/
def showDisplay (state : StrMap) (raw : String) : String :=
  let v := (clearMagic raw).data
  let n := countBangs v
  let key := String.mk (List.drop n v)
  let evalValue := truthy (lookupS state key)
  if (if n % 2 = 0 then !evalValue else evalValue) then "none" else ""

/-- The value inserted for an expression `e`: strip the context marker,
index the state, coerce (`jsString`). -/
def resolveExpr (state : StrMap) (e : String) : String :=
  jsString (lookupS state (clearMagic e))

/-- DOM `setAttribute`: overwrite the value at the (first) existing
occurrence of the name, keeping its position; append a new attribute at the
end otherwise. -/
def setAttr : StrMap → String → String → StrMap
  | [], n, v => [(n, v)]
  | (m, w) :: rest, n, v =>
    if m = n then (m, v) :: rest else (m, w) :: setAttr rest n v

/-- JS `String.prototype.split` with a single-character separator. -/
def splitOnChar (c : Char) : List Char → List (List Char)
  | [] => [[]]
  | x :: xs =>
    match splitOnChar c xs with
    | [] => [[]]
    | h :: t => if x = c then [] :: h :: t else (x :: h) :: t

/-- A DOM tree node.  `id` models object identity of elements (needed to
speak about sharing between the template and returned fragments); `display`
models `el.style.display`.  The source only ever reads and writes the
`display` inline style, so it is kept as a dedicated field. -/
inductive Node where
  | elem (id : Nat) (tag : String) (attrs : StrMap) (display : String)
      (children : List Node)
  | text (s : String)

/-- The child list produced by assigning `el.textContent = v`: all children
are replaced; a non-empty string becomes a single fresh text node, the
empty string leaves no child. -/
def setTextChildren (v : String) : List Node :=
  if v = "" then [] else [Node.text v]

mutual

/-- Show pass (first `forEach` of `replaceStateDirectives`): for each
element carrying `data-s-show`, recompute `el.style.display`. -/
def showPassNode (state : StrMap) : Node → Node
  | .text s => .text s
  | .elem i tg attrs d cs =>
    let d' :=
      match lookupS attrs "data-s-show" with
      | some e => showDisplay state e
      | none => d
    .elem i tg attrs d' (showPassList state cs)

def showPassList (state : StrMap) : List Node → List Node
  | [] => []
  | c :: cs => showPassNode state c :: showPassList state cs

end

mutual

/-- Text pass (second `forEach`): for each element carrying `data-s-text`,
assign `el.textContent`, replacing the whole child list.  Descendants of a
processed element are destroyed by the assignment (the static NodeList
still holds them, but mutating them afterwards is unobservable in the
fragment). -/
def textPassNode (state : StrMap) : Node → Node
  | .text s => .text s
  | .elem i tg attrs d cs =>
    match lookupS attrs "data-s-text" with
    | some e => .elem i tg attrs d (setTextChildren (resolveExpr state e))
    | none => .elem i tg attrs d (textPassList state cs)

def textPassList (state : StrMap) : List Node → List Node
  | [] => []
  | c :: cs => textPassNode state c :: textPassList state cs

end

/-- `el.dataset.sAttr || el.dataset.sAttrs`: JS `||` takes the right operand
when the left is `undefined` (attribute absent) or `""` (empty attribute
value, which is falsy). -/
def attrSourceOf (attrs : StrMap) : Option String :=
  match lookupS attrs "data-s-attr" with
  | some a => if a = "" then lookupS attrs "data-s-attrs" else some a
  | none => lookupS attrs "data-s-attrs"

/-- Whether the element is selected by `"[data-s-attr],[data-s-attrs]"`. -/
def hasAttrMarker (attrs : StrMap) : Bool :=
  (lookupS attrs "data-s-attr").isSome || (lookupS attrs "data-s-attrs").isSome

/-- The pair loop of the attr pass: for each comma-separated pair, split on
`'='`; destructuring takes the first two segments as name and value
expression.  A pair without `'='` leaves the value expression `undefined`
and the source then throws (`clearMagic(undefined)` / reading `.replace` of
`undefined`), modelled as `.error`. -/
def applyPairsE (state : StrMap) : StrMap → List (List Char) → Except Unit StrMap
  | attrs, [] => .ok attrs
  | attrs, p :: ps =>
    match splitOnChar '=' p with
    | n :: e :: _ =>
      applyPairsE state (setAttr attrs (String.mk n) (resolveExpr state (String.mk e))) ps
    | _ => .error ()

/-- The attr pass applied to one selected element's attribute list.  If the
element is selected but the read list is `undefined` (present-but-empty
`data-s-attr` with no `data-s-attrs`), the source throws at
`undefined.split(",")`. -/
def attrStep (state : StrMap) (attrs : StrMap) : Except Unit StrMap :=
  if hasAttrMarker attrs then
    match attrSourceOf attrs with
    | some src => applyPairsE state attrs (splitOnChar ',' src.data)
    | none => .error ()
  else .ok attrs

mutual

/-- Attr pass (third `forEach`): apply `attrStep` to each selected element
in document order. -/
def attrPassNode (state : StrMap) : Node → Except Unit Node
  | .text s => .ok (.text s)
  | .elem i tg attrs d cs =>
    match attrStep state attrs with
    | .error e => .error e
    | .ok attrs' =>
      match attrPassList state cs with
      | .error e => .error e
      | .ok cs' => .ok (.elem i tg attrs' d cs')

def attrPassList (state : StrMap) : List Node → Except Unit (List Node)
  | [] => .ok []
  | c :: cs =>
    match attrPassNode state c with
    | .error e => .error e
    | .ok c' =>
      match attrPassList state cs with
      | .error e => .error e
      | .ok cs' => .ok (c' :: cs')

end

/-- `replaceStateDirectives(tmpl, state)`: the three passes in source order
(show, then text, then attr). -/
def replaceStateDirectives (tmpl : List Node) (state : StrMap) :
    Except Unit (List Node) :=
  attrPassList state (textPassList state (showPassList state tmpl))

mutual

/-- `cloneNode(true)`: structurally identical copy with fresh element
identities drawn from a counter. -/
def cloneNode (c : Nat) : Node → Node × Nat
  | .text s => (.text s, c)
  | .elem _ tg attrs d cs =>
    let r := cloneList (c + 1) cs
    (.elem c tg attrs d r.1, r.2)

def cloneList (c : Nat) : List Node → List Node × Nat
  | [] => ([], c)
  | n :: ns =>
    let r := cloneNode c n
    let r2 := cloneList r.2 ns
    (r.1 :: r2.1, r2.2)

end

mutual

/-- Whether `querySelector("[data-s-slot]")` finds an element (pre-order). -/
def hasSlotNode : Node → Bool
  | .text _ => false
  | .elem _ _ attrs _ cs => (lookupS attrs "data-s-slot").isSome || hasSlotList cs

def hasSlotList : List Node → Bool
  | [] => false
  | c :: cs => hasSlotNode c || hasSlotList cs

end

mutual

/-- Append `ns` as children of the first (document-order) element carrying
`data-s-slot`; `none` when no such element exists. -/
def appendSlotNode (ns : List Node) : Node → Option Node
  | .text _ => none
  | .elem i tg attrs d cs =>
    if (lookupS attrs "data-s-slot").isSome then
      some (.elem i tg attrs d (cs ++ ns))
    else
      match appendSlotList ns cs with
      | some cs' => some (.elem i tg attrs d cs')
      | none => none

def appendSlotList (ns : List Node) : List Node → Option (List Node)
  | [] => none
  | c :: cs =>
    match appendSlotNode ns c with
    | some c' => some (c' :: cs)
    | none =>
      match appendSlotList ns cs with
      | some cs' => some (c :: cs')
      | none => none

end

mutual

/-- The child list of the first (document-order) `data-s-slot` element. -/
def slotChildrenNode : Node → Option (List Node)
  | .text _ => none
  | .elem _ _ attrs _ cs =>
    if (lookupS attrs "data-s-slot").isSome then some cs
    else slotChildrenList cs

def slotChildrenList : List Node → Option (List Node)
  | [] => none
  | c :: cs =>
    match slotChildrenNode c with
    | some r => some r
    | none => slotChildrenList cs

end

/-- What a child provider (`subTmpl`) may return: an array of nodes, a
single node, or a falsy value (`null`/`undefined`). -/
inductive SubResult where
  | arr (ns : List Node)
  | one (n : Node)
  | nil

/-- A child provider: a function of the already-resolved fragment and the
state, returning the warnings it itself emits and its result.  (Providers
are modelled as pure: they do not mutate the fragment they are given.) -/
abbrev Provider := List Node → StrMap → List String × SubResult

/-- The `console.warn` message of both `renderTmpl` variants. -/
def slotWarning : String :=
  "[renderTmpl]: subTmpl used without `data-s-slot` attr in parent template"

/-- Outcome of a `renderTmpl` call: the sequence of `console.warn` messages
emitted before returning or throwing, and either the returned fragment or a
thrown error. -/
structure RenderOut where
  log : List String
  out : Except Unit (List Node)

/-- First `renderTmpl` variant (source lines 132-163): clone, resolve
directives, then — when a provider is supplied — invoke the provider FIRST,
locate the slot, warn if absent, and append the provider's output
(`slot.appendChild` throws when `slot` is `null`).  Also returns the
advanced identity counter. -/
def renderTmpl (tmplContent : List Node) (state : StrMap)
    (subTmpl : Option Provider) (ctr : Nat) : RenderOut × Nat :=
  match replaceStateDirectives (cloneList ctr tmplContent).1 state with
  | .error _ => (⟨[], .error ()⟩, (cloneList ctr tmplContent).2)
  | .ok t =>
    match subTmpl with
    | none => (⟨[], .ok t⟩, (cloneList ctr tmplContent).2)
    | some sp =>
      let r := sp t state
      let wlog := if hasSlotList t then [] else [slotWarning]
      let res : Except Unit (List Node) :=
        match r.2 with
        | .arr [] => .ok t
        | .arr (n :: ns) =>
          match appendSlotList (n :: ns) t with
          | some t' => .ok t'
          | none => .error ()
        | .one n =>
          match appendSlotList [n] t with
          | some t' => .ok t'
          | none => .error ()
        | .nil => .ok t
      (⟨r.1 ++ wlog, res⟩, (cloneList ctr tmplContent).2)

/-- Second `renderTmpl` variant (source lines 223-248): identical except the
slot is located and the warning emitted BEFORE the provider is invoked; its
directive resolver is line-for-line the same algorithm, so it is shared. -/
def renderTmpl2 (tmplContent : List Node) (state : StrMap)
    (subTmpl : Option Provider) (ctr : Nat) : RenderOut × Nat :=
  match replaceStateDirectives (cloneList ctr tmplContent).1 state with
  | .error _ => (⟨[], .error ()⟩, (cloneList ctr tmplContent).2)
  | .ok t =>
    match subTmpl with
    | none => (⟨[], .ok t⟩, (cloneList ctr tmplContent).2)
    | some sp =>
      let wlog := if hasSlotList t then [] else [slotWarning]
      let r := sp t state
      let res : Except Unit (List Node) :=
        match r.2 with
        | .arr [] => .ok t
        | .arr (n :: ns) =>
          match appendSlotList (n :: ns) t with
          | some t' => .ok t'
          | none => .error ()
        | .one n =>
          match appendSlotList [n] t with
          | some t' => .ok t'
          | none => .error ()
        | .nil => .ok t
      (⟨wlog ++ r.1, res⟩, (cloneList ctr tmplContent).2)

/-- `display` of the first node of a fragment, when it is an element. -/
def headDisplayL : List Node → Option String
  | Node.elem _ _ _ d _ :: _ => some d
  | _ => none

/-- Value of attribute `name` on the first node of a fragment. -/
def headAttrL (name : String) : List Node → Option String
  | Node.elem _ _ attrs _ _ :: _ => lookupS attrs name
  | _ => none

/-- Child list of the first node of a fragment, when it is an element. -/
def headChildrenL : List Node → Option (List Node)
  | Node.elem _ _ _ _ cs :: _ => some cs
  | _ => none

/-- Text of the first child of the first element of a fragment. -/
def headTextL : List Node → Option String
  | Node.elem _ _ _ _ (Node.text s :: _) :: _ => some s
  | _ => none

/-- Observe an attribute of the head element of a resolution result
(`none` when resolution threw). -/
def attrOfRes (name : String) : Except Unit (List Node) → Option String
  | .ok l => headAttrL name l
  | .error _ => none

/-- Observe the head element's children of a resolution result. -/
def childrenOfRes : Except Unit (List Node) → Option (List Node)
  | .ok l => headChildrenL l
  | .error _ => none

/-- Observe the head element's leading text of a resolution result. -/
def textOfRes : Except Unit (List Node) → Option String
  | .ok l => headTextL l
  | .error _ => none

/-- Observe the head element's display of a resolution result. -/
def displayOfRes : Except Unit (List Node) → Option String
  | .ok l => headDisplayL l
  | .error _ => none

mutual

/-- Element identities occurring in a node (pre-order). -/
def idsNode : Node → List Nat
  | .text _ => []
  | .elem i _ _ _ cs => i :: idsList cs

def idsList : List Node → List Nat
  | [] => []
  | c :: cs => idsNode c ++ idsList cs

end

/-! ### Attribute-list lemmas -/

theorem lookupS_setAttr_self (a : StrMap) (n v : String) :
    lookupS (setAttr a n v) n = some v := by
  induction a with
  | nil => simp [setAttr, lookupS]
  | cons hd tl ih =>
    obtain ⟨m, w⟩ := hd
    by_cases h : m = n <;> simp [setAttr, lookupS, h, ih]

theorem lookupS_setAttr_ne (a : StrMap) (n v m : String) (h : m ≠ n) :
    lookupS (setAttr a n v) m = lookupS a m := by
  have hnm : ¬ n = m := fun he => h he.symm
  induction a with
  | nil => simp [setAttr, lookupS, hnm]
  | cons hd tl ih =>
    obtain ⟨k, w⟩ := hd
    by_cases hk : k = n
    · subst hk
      simp [setAttr, lookupS, hnm]
    · by_cases hm : k = m <;> simp [setAttr, lookupS, hk, hm, hnm, h, ih]

theorem isSome_lookupS_setAttr (a : StrMap) (n v m : String)
    (h : (lookupS a m).isSome = true) :
    (lookupS (setAttr a n v) m).isSome = true := by
  by_cases hm : m = n
  · subst hm; simp [lookupS_setAttr_self]
  · rw [lookupS_setAttr_ne a n v m hm]; exact h

theorem setAttr_setAttr_same (a : StrMap) (n v u : String) :
    setAttr (setAttr a n v) n u = setAttr a n u := by
  induction a with
  | nil => simp [setAttr]
  | cons hd tl ih =>
    obtain ⟨m, w⟩ := hd
    by_cases h : m = n <;> simp [setAttr, h, ih]

theorem setAttr_self (a : StrMap) (n v : String) (h : lookupS a n = some v) :
    setAttr a n v = a := by
  induction a with
  | nil => simp [lookupS] at h
  | cons hd tl ih =>
    obtain ⟨m, w⟩ := hd
    by_cases hm : m = n
    · subst hm
      simp [lookupS] at h
      simp [setAttr, h]
    · simp [lookupS, hm] at h
      simp [setAttr, hm, ih h]

theorem setAttr_comm (b : StrMap) (n v m u : String)
    (h : (lookupS b n).isSome = true) (hmn : m ≠ n) :
    setAttr (setAttr b n v) m u = setAttr (setAttr b m u) n v := by
  induction b with
  | nil => simp [lookupS] at h
  | cons hd tl ih =>
    obtain ⟨k, w⟩ := hd
    by_cases hk : k = n
    · subst hk
      have hkm : k ≠ m := fun he => hmn he.symm
      simp [setAttr, hkm]
    · by_cases hm : k = m
      · subst hm
        simp [setAttr, hk]
      · simp [lookupS, hk] at h
        simp [setAttr, hk, hm, ih h]

/-- The pair list of an attr-marker value, pre-parsed: each well-formed pair
becomes its attribute name together with the already-resolved value. -/
def parsePairs (state : StrMap) : List (List Char) → Option (List (String × String))
  | [] => some []
  | p :: ps =>
    match splitOnChar '=' p with
    | n :: e :: _ =>
      match parsePairs state ps with
      | some ws => some ((String.mk n, resolveExpr state (String.mk e)) :: ws)
      | none => none
    | _ => none

/-- Apply a pre-parsed write list left-to-right. -/
def applyParsed : StrMap → List (String × String) → StrMap
  | attrs, [] => attrs
  | attrs, (n, v) :: ws => applyParsed (setAttr attrs n v) ws

theorem applyPairsE_eq_parsePairs (state : StrMap) (attrs : StrMap)
    (ps : List (List Char)) :
    applyPairsE state attrs ps =
      match parsePairs state ps with
      | some ws => .ok (applyParsed attrs ws)
      | none => .error () := by
  induction ps generalizing attrs with
  | nil => simp [applyPairsE, parsePairs, applyParsed]
  | cons p ps ih =>
    cases hsplit : splitOnChar '=' p with
    | nil => simp [applyPairsE, parsePairs, hsplit]
    | cons n rest =>
      cases rest with
      | nil => simp [applyPairsE, parsePairs, hsplit]
      | cons e rest2 =>
        simp only [applyPairsE, parsePairs, hsplit, ih]
        cases parsePairs state ps <;> simp [applyParsed]

/-- The value of the LAST write to a given name in a write list. -/
def lastWrite : List (String × String) → String → Option String
  | [], _ => none
  | (n, v) :: ws, m =>
    match lastWrite ws m with
    | some w => some w
    | none => if n = m then some v else none

theorem lookupS_applyParsed (attrs : StrMap) (ws : List (String × String))
    (m : String) :
    lookupS (applyParsed attrs ws) m =
      match lastWrite ws m with
      | some w => some w
      | none => lookupS attrs m := by
  induction ws generalizing attrs with
  | nil => simp [applyParsed, lastWrite]
  | cons p ws ih =>
    obtain ⟨n, v⟩ := p
    rw [applyParsed, ih]
    cases hlw : lastWrite ws m with
    | some w => simp [lastWrite, hlw]
    | none =>
      by_cases hnm : n = m
      · subst hnm; simp [lastWrite, hlw, lookupS_setAttr_self]
      · have hmn : m ≠ n := fun he => hnm he.symm
        simp [lastWrite, hlw, hnm, lookupS_setAttr_ne attrs n v m hmn]

theorem isSome_lookupS_applyParsed (attrs : StrMap) (ws : List (String × String))
    (m : String) (h : (lookupS attrs m).isSome = true) :
    (lookupS (applyParsed attrs ws) m).isSome = true := by
  rw [lookupS_applyParsed]
  cases lastWrite ws m <;> simp [h]

theorem applyParsed_setAttr_absorb (ws : List (String × String)) (b : StrMap)
    (n v : String) (hpres : (lookupS b n).isSome = true)
    (hw : (lastWrite ws n).isSome = true) :
    applyParsed (setAttr b n v) ws = applyParsed b ws := by
  induction ws generalizing b v with
  | nil => simp [lastWrite] at hw
  | cons p ws ih =>
    obtain ⟨m, u⟩ := p
    by_cases hmn : m = n
    · subst hmn
      simp only [applyParsed, setAttr_setAttr_same]
    · have hw' : (lastWrite ws n).isSome = true := by
        rcases hlw : lastWrite ws n with _ | w
        · simp [lastWrite, hlw, hmn] at hw
        · rfl
      simp only [applyParsed]
      rw [setAttr_comm b n v m u hpres hmn]
      exact ih (setAttr b m u) v (isSome_lookupS_setAttr b m u n hpres) hw'

theorem applyParsed_idem (ws : List (String × String)) (a : StrMap) :
    applyParsed (applyParsed a ws) ws = applyParsed a ws := by
  induction ws generalizing a with
  | nil => simp [applyParsed]
  | cons p ws ih =>
    obtain ⟨n, v⟩ := p
    simp only [applyParsed]
    cases hlw : lastWrite ws n with
    | none =>
      have hb : lookupS (applyParsed (setAttr a n v) ws) n = some v := by
        rw [lookupS_applyParsed, hlw, lookupS_setAttr_self]
      rw [setAttr_self _ n v hb]
      exact ih (setAttr a n v)
    | some w =>
      have hpres : (lookupS (applyParsed (setAttr a n v) ws) n).isSome = true := by
        rw [lookupS_applyParsed, hlw]; rfl
      rw [applyParsed_setAttr_absorb ws _ n v hpres (by rw [hlw]; rfl)]
      exact ih (setAttr a n v)

/-! ### Marker-writing pairs and `attrStep` idempotence -/

/-- The attribute name an attr-pass pair would write (`none` for a pair the
source throws on). -/
def pairName (p : List Char) : Option String :=
  match splitOnChar '=' p with
  | n :: _ :: _ => some (String.mk n)
  | _ => none

/-- The four directive marker attributes read by `replaceStateDirectives`. -/
def markersList : List String :=
  ["data-s-show", "data-s-text", "data-s-attr", "data-s-attrs"]

/-- No pair of this element's effective attr list writes a directive marker
attribute. -/
def noMarkerWritesA (attrs : StrMap) : Bool :=
  match attrSourceOf attrs with
  | some src =>
    ((splitOnChar ',' src.data).filterMap pairName).all
      (fun n => decide (n ∉ markersList))
  | none => true

theorem parsePairs_names (state : StrMap) (ps : List (List Char))
    (ws : List (String × String)) (h : parsePairs state ps = some ws) :
    ws.map Prod.fst = ps.filterMap pairName := by
  induction ps generalizing ws with
  | nil =>
    simp [parsePairs] at h
    subst h; simp
  | cons p ps ih =>
    cases hsplit : splitOnChar '=' p with
    | nil => simp [parsePairs, hsplit] at h
    | cons n rest =>
      cases rest with
      | nil => simp [parsePairs, hsplit] at h
      | cons e rest2 =>
        simp only [parsePairs, hsplit] at h
        cases hps : parsePairs state ps with
        | none => rw [hps] at h; simp at h
        | some ws0 =>
          rw [hps] at h
          simp only [Option.some.injEq] at h
          subst h
          simp [List.filterMap_cons, pairName, hsplit, ih ws0 hps]

theorem lastWrite_eq_none (ws : List (String × String)) (n : String)
    (h : n ∉ ws.map Prod.fst) : lastWrite ws n = none := by
  induction ws with
  | nil => rfl
  | cons p ws ih =>
    obtain ⟨m, v⟩ := p
    simp only [List.map_cons, List.mem_cons] at h
    push_neg at h
    have hmn : ¬ m = n := fun he => h.1 he.symm
    simp [lastWrite, ih h.2, hmn]

theorem attrStep_markers (state attrs attrs' : StrMap) (m : String)
    (hnw : noMarkerWritesA attrs = true)
    (hstep : attrStep state attrs = .ok attrs') (hm : m ∈ markersList) :
    lookupS attrs' m = lookupS attrs m := by
  unfold attrStep at hstep
  by_cases hmk : hasAttrMarker attrs
  · rw [if_pos hmk] at hstep
    cases hsrc : attrSourceOf attrs with
    | none => rw [hsrc] at hstep; exact absurd hstep (by simp)
    | some src =>
      simp only [hsrc] at hstep
      rw [applyPairsE_eq_parsePairs] at hstep
      cases hps : parsePairs state (splitOnChar ',' src.data) with
      | none => rw [hps] at hstep; exact absurd hstep (by simp)
      | some ws =>
        rw [hps] at hstep
        simp only [Except.ok.injEq] at hstep
        subst hstep
        rw [lookupS_applyParsed]
        have hnames : ws.map Prod.fst = (splitOnChar ',' src.data).filterMap pairName :=
          parsePairs_names state _ ws hps
        have hnm : m ∉ ws.map Prod.fst := by
          rw [hnames]
          intro hmem
          unfold noMarkerWritesA at hnw
          rw [hsrc] at hnw
          simp only [List.all_eq_true, decide_eq_true_eq] at hnw
          exact hnw m hmem hm
        rw [lastWrite_eq_none ws m hnm]
  · rw [if_neg hmk] at hstep
    simp only [Except.ok.injEq] at hstep
    subst hstep; rfl

theorem attrStep_idem (state attrs attrs' : StrMap)
    (hnw : noMarkerWritesA attrs = true)
    (hstep : attrStep state attrs = .ok attrs') :
    attrStep state attrs' = .ok attrs' ∧ noMarkerWritesA attrs' = true := by
  have hA : lookupS attrs' "data-s-attr" = lookupS attrs "data-s-attr" :=
    attrStep_markers state attrs attrs' _ hnw hstep (by simp [markersList])
  have hAs : lookupS attrs' "data-s-attrs" = lookupS attrs "data-s-attrs" :=
    attrStep_markers state attrs attrs' _ hnw hstep (by simp [markersList])
  have hsrc' : attrSourceOf attrs' = attrSourceOf attrs := by
    unfold attrSourceOf; rw [hA, hAs]
  have hmk' : hasAttrMarker attrs' = hasAttrMarker attrs := by
    unfold hasAttrMarker; rw [hA, hAs]
  have hnw' : noMarkerWritesA attrs' = true := by
    unfold noMarkerWritesA at hnw ⊢; rw [hsrc']; exact hnw
  refine ⟨?_, hnw'⟩
  unfold attrStep at hstep ⊢
  rw [hmk', hsrc']
  by_cases hmk : hasAttrMarker attrs
  · rw [if_pos hmk] at hstep ⊢
    cases hsrc : attrSourceOf attrs with
    | none => rw [hsrc] at hstep; exact absurd hstep (by simp)
    | some src =>
      simp only [hsrc] at hstep ⊢
      rw [applyPairsE_eq_parsePairs] at hstep ⊢
      cases hps : parsePairs state (splitOnChar ',' src.data) with
      | none => rw [hps] at hstep; exact absurd hstep (by simp)
      | some ws =>
        rw [hps] at hstep
        simp only [Except.ok.injEq] at hstep
        subst hstep
        simp [applyParsed_idem]
  · rw [if_neg hmk] at hstep ⊢

mutual

/-- No attr-pass pair anywhere in the tree writes a marker attribute. -/
def noMarkerWritesNode : Node → Bool
  | .text _ => true
  | .elem _ _ attrs _ cs => noMarkerWritesA attrs && noMarkerWritesList cs

def noMarkerWritesList : List Node → Bool
  | [] => true
  | c :: cs => noMarkerWritesNode c && noMarkerWritesList cs

end

mutual

/-- The three passes of `replaceStateDirectives` fused into one
document-order traversal: each element's outcome is a function of its own
marker attributes (and the state) only.  Proved equal to the pass-by-pass
composition below (`fusionList`). -/
def resolveNode (state : StrMap) : Node → Except Unit Node
  | .text s => .ok (.text s)
  | .elem i tg attrs d cs =>
    let d' :=
      match lookupS attrs "data-s-show" with
      | some e => showDisplay state e
      | none => d
    match lookupS attrs "data-s-text" with
    | some e =>
      match attrStep state attrs with
      | .error er => .error er
      | .ok attrs' => .ok (.elem i tg attrs' d' (setTextChildren (resolveExpr state e)))
    | none =>
      match attrStep state attrs with
      | .error er => .error er
      | .ok attrs' =>
        match resolveList state cs with
        | .error er => .error er
        | .ok cs' => .ok (.elem i tg attrs' d' cs')

def resolveList (state : StrMap) : List Node → Except Unit (List Node)
  | [] => .ok []
  | c :: cs =>
    match resolveNode state c with
    | .error e => .error e
    | .ok c' =>
      match resolveList state cs with
      | .error e => .error e
      | .ok cs' => .ok (c' :: cs')

end

theorem attrPassList_setTextChildren (state : StrMap) (v : String) :
    attrPassList state (setTextChildren v) = .ok (setTextChildren v) := by
  unfold setTextChildren
  by_cases h : v = "" <;>
    simp [h, attrPassList, attrPassNode]

mutual

theorem fusionNode (state : StrMap) : ∀ n : Node,
    attrPassNode state (textPassNode state (showPassNode state n)) = resolveNode state n
  | .text s => rfl
  | .elem i tg attrs d cs => by
    simp only [showPassNode, textPassNode, resolveNode]
    cases htext : lookupS attrs "data-s-text" with
    | some e =>
      simp only [attrPassNode, attrPassList_setTextChildren]
    | none =>
      simp only [attrPassNode]
      rw [fusionList state cs]

theorem fusionList (state : StrMap) : ∀ l : List Node,
    attrPassList state (textPassList state (showPassList state l)) = resolveList state l
  | [] => rfl
  | c :: cs => by
    simp only [showPassList, textPassList, attrPassList]
    rw [fusionNode state c, fusionList state cs]
    rfl

end

/-- The pass-by-pass resolver IS the fused local resolver. -/
theorem replaceStateDirectives_eq_resolveList (l : List Node) (state : StrMap) :
    replaceStateDirectives l state = resolveList state l :=
  fusionList state l

theorem noMarkerWritesList_setTextChildren (v : String) :
    noMarkerWritesList (setTextChildren v) = true := by
  unfold setTextChildren
  by_cases h : v = "" <;> simp [h, noMarkerWritesList, noMarkerWritesNode]

mutual

theorem resolveNode_idem (state : StrMap) : ∀ n m, noMarkerWritesNode n = true →
    resolveNode state n = .ok m → resolveNode state m = .ok m ∧ noMarkerWritesNode m = true
  | .text s, m => by
    intro _ hres
    simp only [resolveNode, Except.ok.injEq] at hres
    subst hres
    exact ⟨rfl, rfl⟩
  | .elem i tg attrs d cs, m => by
    intro hnw hres
    simp only [noMarkerWritesNode, Bool.and_eq_true] at hnw
    obtain ⟨hnwA, hnwC⟩ := hnw
    simp only [resolveNode] at hres
    cases htext : lookupS attrs "data-s-text" with
    | some e =>
      simp only [htext] at hres
      cases hstep : attrStep state attrs with
      | error er => simp only [hstep] at hres; exact absurd hres (by simp)
      | ok attrs' =>
        simp only [hstep, Except.ok.injEq] at hres
        subst hres
        obtain ⟨hstep', hnwA'⟩ := attrStep_idem state attrs attrs' hnwA hstep
        have hshow' : lookupS attrs' "data-s-show" = lookupS attrs "data-s-show" :=
          attrStep_markers state attrs attrs' _ hnwA hstep (by simp [markersList])
        have htext' : lookupS attrs' "data-s-text" = lookupS attrs "data-s-text" :=
          attrStep_markers state attrs attrs' _ hnwA hstep (by simp [markersList])
        constructor
        · simp only [resolveNode, hshow', htext', htext, hstep']
          cases hsh : lookupS attrs "data-s-show" <;> simp [hsh]
        · simp [noMarkerWritesNode, hnwA', noMarkerWritesList_setTextChildren]
    | none =>
      simp only [htext] at hres
      cases hstep : attrStep state attrs with
      | error er => simp only [hstep] at hres; exact absurd hres (by simp)
      | ok attrs' =>
        simp only [hstep] at hres
        cases hcs : resolveList state cs with
        | error er => simp only [hcs] at hres; exact absurd hres (by simp)
        | ok cs' =>
          simp only [hcs, Except.ok.injEq] at hres
          subst hres
          obtain ⟨hstep', hnwA'⟩ := attrStep_idem state attrs attrs' hnwA hstep
          have hshow' : lookupS attrs' "data-s-show" = lookupS attrs "data-s-show" :=
            attrStep_markers state attrs attrs' _ hnwA hstep (by simp [markersList])
          have htext' : lookupS attrs' "data-s-text" = lookupS attrs "data-s-text" :=
            attrStep_markers state attrs attrs' _ hnwA hstep (by simp [markersList])
          obtain ⟨hcs', hnwC'⟩ := resolveList_idem state cs cs' hnwC hcs
          constructor
          · simp only [resolveNode, hshow', htext', htext, hstep', hcs']
            cases hsh : lookupS attrs "data-s-show" <;> simp [hsh]
          · simp [noMarkerWritesNode, hnwA', hnwC']

theorem resolveList_idem (state : StrMap) : ∀ l g, noMarkerWritesList l = true →
    resolveList state l = .ok g → resolveList state g = .ok g ∧ noMarkerWritesList g = true
  | [], g => by
    intro _ hres
    simp only [resolveList, Except.ok.injEq] at hres
    subst hres
    exact ⟨rfl, rfl⟩
  | c :: cs, g => by
    intro hnw hres
    simp only [noMarkerWritesList, Bool.and_eq_true] at hnw
    simp only [resolveList] at hres
    cases hc : resolveNode state c with
    | error er => simp only [hc] at hres; exact absurd hres (by simp)
    | ok c' =>
      simp only [hc] at hres
      cases hcs : resolveList state cs with
      | error er => simp only [hcs] at hres; exact absurd hres (by simp)
      | ok g0 =>
        simp only [hcs, Except.ok.injEq] at hres
        subst hres
        obtain ⟨h1, h2⟩ := resolveNode_idem state c c' hnw.1 hc
        obtain ⟨h3, h4⟩ := resolveList_idem state cs g0 hnw.2 hcs
        refine ⟨?_, by simp [noMarkerWritesList, h2, h4]⟩
        simp only [resolveList, h1, h3]

end

/-! ### Shape of a successfully resolved element -/

theorem countBangs_replicate_append (n : Nat) (l : List Char)
    (hl : countBangs l = 0) : countBangs (List.replicate n '!' ++ l) = n := by
  induction n with
  | zero => simpa using hl
  | succ k ih => simp [List.replicate_succ, countBangs, ih]

theorem drop_replicate_append (n : Nat) (c : Char) (l : List Char) :
    List.drop n (List.replicate n c ++ l) = l := by
  have h := List.drop_left (List.replicate n c) l
  rwa [List.length_replicate] at h

theorem showDisplay_eq (state : StrMap) (raw : String) (n : Nat) (kd : List Char)
    (hshape : (clearMagic raw).data = List.replicate n '!' ++ kd)
    (hk : countBangs kd = 0) :
    showDisplay state raw =
      if truthy (lookupS state (String.mk kd)) = decide (n % 2 = 0) then ""
      else "none" := by
  unfold showDisplay
  simp only [hshape, countBangs_replicate_append n kd hk, drop_replicate_append]
  by_cases hp : n % 2 = 0 <;>
    cases htv : truthy (lookupS state (String.mk kd)) <;> simp [hp, htv]

theorem resolveNode_elem_shape (state : StrMap) (i : Nat) (tg : String)
    (attrs : StrMap) (d : String) (cs : List Node) (m : Node)
    (hres : resolveNode state (.elem i tg attrs d cs) = .ok m) :
    ∃ attrs' cs', m = .elem i tg attrs'
      (match lookupS attrs "data-s-show" with
       | some e => showDisplay state e
       | none => d) cs' := by
  simp only [resolveNode] at hres
  cases htext : lookupS attrs "data-s-text" with
  | some e =>
    simp only [htext] at hres
    cases hstep : attrStep state attrs with
    | error er => simp only [hstep] at hres; exact absurd hres (by simp)
    | ok attrs' =>
      simp only [hstep, Except.ok.injEq] at hres
      exact ⟨attrs', _, hres.symm⟩
  | none =>
    simp only [htext] at hres
    cases hstep : attrStep state attrs with
    | error er => simp only [hstep] at hres; exact absurd hres (by simp)
    | ok attrs' =>
      simp only [hstep] at hres
      cases hcs : resolveList state cs with
      | error er => simp only [hcs] at hres; exact absurd hres (by simp)
      | ok cs' =>
        simp only [hcs, Except.ok.injEq] at hres
        exact ⟨attrs', cs', hres.symm⟩

theorem resolveList_singleton (state : StrMap) (x : Node) (g : List Node)
    (hres : resolveList state [x] = .ok g) :
    ∃ m, resolveNode state x = .ok m ∧ g = [m] := by
  simp only [resolveList] at hres
  cases hx : resolveNode state x with
  | error er => simp only [hx] at hres; exact absurd hres (by simp)
  | ok m =>
    simp only [hx, Except.ok.injEq] at hres
    exact ⟨m, rfl, hres.symm⟩

/-! ### Slot lemmas -/

mutual

theorem hasSlot_isSome_node : ∀ n : Node, hasSlotNode n = (slotChildrenNode n).isSome
  | .text _ => rfl
  | .elem i tg attrs d cs => by
    simp only [hasSlotNode, slotChildrenNode]
    by_cases h : (lookupS attrs "data-s-slot").isSome <;>
      simp [h, hasSlot_isSome_list cs]

theorem hasSlot_isSome_list : ∀ l : List Node, hasSlotList l = (slotChildrenList l).isSome
  | [] => rfl
  | c :: cs => by
    simp only [hasSlotList, slotChildrenList]
    cases hsc : slotChildrenNode c with
    | some r => simp [hasSlot_isSome_node c, hsc]
    | none => simp [hasSlot_isSome_node c, hsc, hasSlot_isSome_list cs]

end

mutual

theorem appendSlotNode_none : ∀ (n : Node) (ns : List Node), hasSlotNode n = false →
    appendSlotNode ns n = none
  | .text _, ns => by intro _; rfl
  | .elem i tg attrs d cs, ns => by
    intro h
    simp only [hasSlotNode, Bool.or_eq_false_iff] at h
    simp only [appendSlotNode, h.1, Bool.false_eq_true, if_false,
      appendSlotList_none cs ns h.2]

theorem appendSlotList_none : ∀ (l : List Node) (ns : List Node), hasSlotList l = false →
    appendSlotList ns l = none
  | [], ns => by intro _; rfl
  | c :: cs, ns => by
    intro h
    simp only [hasSlotList, Bool.or_eq_false_iff] at h
    simp only [appendSlotList, appendSlotNode_none c ns h.1,
      appendSlotList_none cs ns h.2]

end

mutual

theorem appendSlotNode_children : ∀ (n : Node) (cs0 ns : List Node),
    slotChildrenNode n = some cs0 →
    ∃ n', appendSlotNode ns n = some n' ∧ slotChildrenNode n' = some (cs0 ++ ns)
  | .text _, cs0, ns => by intro h; exact absurd h (by simp [slotChildrenNode])
  | .elem i tg attrs d cs, cs0, ns => by
    intro h
    simp only [slotChildrenNode] at h
    by_cases hslot : (lookupS attrs "data-s-slot").isSome
    · rw [if_pos hslot] at h
      simp only [Option.some.injEq] at h
      subst h
      exact ⟨.elem i tg attrs d (cs ++ ns), by
        simp [appendSlotNode, hslot], by simp [slotChildrenNode, hslot]⟩
    · rw [if_neg hslot] at h
      obtain ⟨cs', h1, h2⟩ := appendSlotList_children cs cs0 ns h
      exact ⟨.elem i tg attrs d cs', by
        simp [appendSlotNode, hslot, h1], by simp [slotChildrenNode, hslot, h2]⟩

theorem appendSlotList_children : ∀ (l : List Node) (cs0 ns : List Node),
    slotChildrenList l = some cs0 →
    ∃ l', appendSlotList ns l = some l' ∧ slotChildrenList l' = some (cs0 ++ ns)
  | [], cs0, ns => by intro h; exact absurd h (by simp [slotChildrenList])
  | c :: cs, cs0, ns => by
    intro h
    simp only [slotChildrenList] at h
    cases hsc : slotChildrenNode c with
    | some r =>
      rw [hsc] at h
      simp only [Option.some.injEq] at h
      subst h
      obtain ⟨c', h1, h2⟩ := appendSlotNode_children c r ns hsc
      exact ⟨c' :: cs, by simp [appendSlotList, h1], by simp [slotChildrenList, h2]⟩
    | none =>
      rw [hsc] at h
      obtain ⟨cs', h1, h2⟩ := appendSlotList_children cs cs0 ns h
      have hcnone : appendSlotNode ns c = none := by
        apply appendSlotNode_none
        rw [hasSlot_isSome_node, hsc]; rfl
      exact ⟨c :: cs', by simp [appendSlotList, hcnone, h1],
        by simp [slotChildrenList, hsc, h2]⟩

end

/-! ### Identity lemmas (freshness of clones, resolution shrinks ids) -/

theorem idsList_setTextChildren (v : String) : idsList (setTextChildren v) = [] := by
  unfold setTextChildren
  by_cases h : v = "" <;> simp [h, idsList, idsNode]

mutual

theorem idsNode_resolve_subset (state : StrMap) : ∀ (n m : Node),
    resolveNode state n = .ok m → ∀ x, x ∈ idsNode m → x ∈ idsNode n
  | .text s, m => by
    intro hres x hx
    simp only [resolveNode, Except.ok.injEq] at hres
    subst hres
    exact hx
  | .elem i tg attrs d cs, m => by
    intro hres x hx
    simp only [resolveNode] at hres
    cases htext : lookupS attrs "data-s-text" with
    | some e =>
      simp only [htext] at hres
      cases hstep : attrStep state attrs with
      | error er => simp only [hstep] at hres; exact absurd hres (by simp)
      | ok attrs' =>
        simp only [hstep, Except.ok.injEq] at hres
        subst hres
        simp only [idsNode, idsList_setTextChildren, List.mem_cons,
          List.not_mem_nil, or_false] at hx
        simp [idsNode, hx]
    | none =>
      simp only [htext] at hres
      cases hstep : attrStep state attrs with
      | error er => simp only [hstep] at hres; exact absurd hres (by simp)
      | ok attrs' =>
        simp only [hstep] at hres
        cases hcs : resolveList state cs with
        | error er => simp only [hcs] at hres; exact absurd hres (by simp)
        | ok cs' =>
          simp only [hcs, Except.ok.injEq] at hres
          subst hres
          simp only [idsNode, List.mem_cons] at hx
          rcases hx with hx | hx
          · simp [idsNode, hx]
          · simp only [idsNode, List.mem_cons]
            exact Or.inr (idsList_resolve_subset state cs cs' hcs x hx)

theorem idsList_resolve_subset (state : StrMap) : ∀ (l g : List Node),
    resolveList state l = .ok g → ∀ x, x ∈ idsList g → x ∈ idsList l
  | [], g => by
    intro hres x hx
    simp only [resolveList, Except.ok.injEq] at hres
    subst hres
    simp [idsList] at hx
  | c :: cs, g => by
    intro hres x hx
    simp only [resolveList] at hres
    cases hc : resolveNode state c with
    | error er => simp only [hc] at hres; exact absurd hres (by simp)
    | ok c' =>
      simp only [hc] at hres
      cases hcs : resolveList state cs with
      | error er => simp only [hcs] at hres; exact absurd hres (by simp)
      | ok g0 =>
        simp only [hcs, Except.ok.injEq] at hres
        subst hres
        simp only [idsList, List.mem_append] at hx ⊢
        rcases hx with hx | hx
        · exact Or.inl (idsNode_resolve_subset state c c' hc x hx)
        · exact Or.inr (idsList_resolve_subset state cs g0 hcs x hx)

end

mutual

theorem cloneNode_bounds : ∀ (n : Node) (c : Nat),
    c ≤ (cloneNode c n).2 ∧
    ∀ x ∈ idsNode (cloneNode c n).1, c ≤ x ∧ x < (cloneNode c n).2
  | .text s, c => by simp [cloneNode, idsNode]
  | .elem i tg attrs d cs, c => by
    obtain ⟨h1, h2⟩ := cloneList_bounds cs (c + 1)
    simp only [cloneNode]
    refine ⟨by omega, ?_⟩
    intro x hx
    simp only [idsNode, List.mem_cons] at hx
    rcases hx with hx | hx
    · exact ⟨by omega, by omega⟩
    · have := h2 x hx; omega

theorem cloneList_bounds : ∀ (l : List Node) (c : Nat),
    c ≤ (cloneList c l).2 ∧
    ∀ x ∈ idsList (cloneList c l).1, c ≤ x ∧ x < (cloneList c l).2
  | [], c => by simp [cloneList, idsList]
  | n :: ns, c => by
    obtain ⟨h1, h2⟩ := cloneNode_bounds n c
    obtain ⟨h3, h4⟩ := cloneList_bounds ns (cloneNode c n).2
    simp only [cloneList]
    refine ⟨by omega, ?_⟩
    intro x hx
    simp only [idsList, List.mem_append] at hx
    rcases hx with hx | hx
    · have := h2 x hx; omega
    · have := h4 x hx; omega

end


/-! ### Context-marker and split lemmas -/

theorem removeFirst_append (pat l : List Char) (h : pat ≠ []) :
    removeFirst pat (pat ++ l) = l := by
  cases pat with
  | nil => exact absurd rfl h
  | cons q qs =>
    have hpre : List.isPrefixOf (q :: qs) (q :: (qs ++ l)) = true := by
      rw [← List.cons_append, List.isPrefixOf_iff_prefix]
      exact List.prefix_append _ _
    show removeFirst (q :: qs) (q :: (qs ++ l)) = l
    rw [removeFirst, if_pos hpre, ← List.cons_append]
    exact List.drop_left _ _

theorem clearMagic_ctx_append (k : String) : clearMagic ("$ctx." ++ k) = k := by
  unfold clearMagic
  rw [String.data_append]
  have hd : ("$ctx." : String).data = ctxPat := rfl
  rw [hd, removeFirst_append ctxPat k.data (by simp [ctxPat])]

theorem splitOnChar_ne_nil (c : Char) (l : List Char) : splitOnChar c l ≠ [] := by
  cases l with
  | nil => simp [splitOnChar]
  | cons x xs =>
    simp only [splitOnChar]
    cases splitOnChar c xs with
    | nil => simp
    | cons h t => by_cases hx : x = c <;> simp [hx]

theorem splitOnChar_not_mem (c : Char) (l : List Char) (h : c ∉ l) :
    splitOnChar c l = [l] := by
  induction l with
  | nil => rfl
  | cons x xs ih =>
    simp only [List.mem_cons] at h
    push_neg at h
    simp only [splitOnChar, ih h.2]
    simp [Ne.symm h.1]

theorem splitOnChar_append (c : Char) (l1 l2 : List Char) (h : c ∉ l1) :
    splitOnChar c (l1 ++ c :: l2) = l1 :: splitOnChar c l2 := by
  induction l1 with
  | nil =>
    simp only [List.nil_append, splitOnChar]
    cases hs : splitOnChar c l2 with
    | nil => exact absurd hs (splitOnChar_ne_nil c l2)
    | cons h0 t => simp
  | cons x xs ih =>
    simp only [List.mem_cons] at h
    push_neg at h
    simp only [List.cons_append, splitOnChar, List.append_eq]
    rw [ih h.2]
    simp [Ne.symm h.1]

/-! ### Resolution of fixed-shape single-element fragments -/

theorem text_elem_resolve (state : StrMap) (i : Nat) (tg d : String)
    (cs : List Node) (te : String) :
    replaceStateDirectives [Node.elem i tg [("data-s-text", te)] d cs] state
      = .ok [Node.elem i tg [("data-s-text", te)] d
          (setTextChildren (resolveExpr state te))] := by
  rw [replaceStateDirectives_eq_resolveList]
  have h1 : lookupS [("data-s-text", te)] "data-s-show" = none := by simp [lookupS]
  have h2 : lookupS [("data-s-text", te)] "data-s-text" = some te := by simp [lookupS]
  have h3 : hasAttrMarker [("data-s-text", te)] = false := by
    simp [hasAttrMarker, lookupS]
  simp [resolveList, resolveNode, h1, h2, attrStep, h3]

theorem attr_single_pair (state : StrMap) (i : Nat) (tg d : String) (p : String)
    (nd ed : List Char) (rest : List (List Char))
    (hsplit1 : splitOnChar ',' p.data = [p.data])
    (hsplit2 : splitOnChar '=' p.data = nd :: ed :: rest) :
    replaceStateDirectives [Node.elem i tg [("data-s-attr", p)] d []] state
      = .ok [Node.elem i tg
          (setAttr [("data-s-attr", p)] (String.mk nd) (resolveExpr state (String.mk ed)))
          d []] := by
  rw [replaceStateDirectives_eq_resolveList]
  have h1 : lookupS [("data-s-attr", p)] "data-s-show" = none := by simp [lookupS]
  have h2 : lookupS [("data-s-attr", p)] "data-s-text" = none := by simp [lookupS]
  have h3 : lookupS [("data-s-attr", p)] "data-s-attr" = some p := by simp [lookupS]
  have h4 : lookupS [("data-s-attr", p)] "data-s-attrs" = none := by simp [lookupS]
  have hpne : p ≠ "" := by
    intro he
    subst he
    simp [splitOnChar] at hsplit2
  have hmk : hasAttrMarker [("data-s-attr", p)] = true := by
    simp [hasAttrMarker, h3]
  have hsrc : attrSourceOf [("data-s-attr", p)] = some p := by
    simp [attrSourceOf, h3, h4, hpne]
  simp [resolveList, resolveNode, h1, h2, attrStep, hmk, hsrc, hsplit1,
    applyPairsE, hsplit2]

/-! ### `renderTmpl` without a provider -/

theorem renderTmpl_none_spec (tc : List Node) (state : StrMap) (c : Nat) :
    (renderTmpl tc state none c).2 = (cloneList c tc).2 ∧
    ∀ f, ((renderTmpl tc state none c).1).out = .ok f →
      resolveList state (cloneList c tc).1 = .ok f := by
  constructor
  · unfold renderTmpl
    cases hr : replaceStateDirectives (cloneList c tc).1 state <;> simp [hr]
  · intro f hf
    unfold renderTmpl at hf
    cases hr : replaceStateDirectives (cloneList c tc).1 state with
    | error e => simp only [hr] at hf; exact absurd hf (by simp)
    | ok t =>
      simp only [hr] at hf
      rw [← replaceStateDirectives_eq_resolveList, hr]
      simp only [Except.ok.injEq] at hf ⊢
      exact hf


/-! ### Claim theorems -/

/-- C1: for every element carrying a show-marker whose (prefix-stripped)
expression consists of `n` leading `'!'` characters followed by a bare key,
and every flat string state, after (successful) directive resolution the
element's display style is the default empty value when (`n` even and the
key truthy) or (`n` odd and not truthy), and is `"none"` otherwise. -/
theorem c1_show_negation_parity (state : StrMap) (i : Nat) (tg : String)
    (attrs : StrMap) (d : String) (cs : List Node) (e : String) (n : Nat)
    (kd : List Char) (g : List Node)
    (hshow : lookupS attrs "data-s-show" = some e)
    (hshape : (clearMagic e).data = List.replicate n '!' ++ kd)
    (hbare : countBangs kd = 0)
    (hres : replaceStateDirectives [Node.elem i tg attrs d cs] state = .ok g) :
    headDisplayL g =
      some (if (n % 2 = 0 ∧ truthy (lookupS state (String.mk kd)) = true)
              ∨ (n % 2 ≠ 0 ∧ truthy (lookupS state (String.mk kd)) = false)
            then "" else "none") := by
  rw [replaceStateDirectives_eq_resolveList] at hres
  obtain ⟨m, hm, hg⟩ := resolveList_singleton state _ g hres
  obtain ⟨attrs', cs', hm'⟩ := resolveNode_elem_shape state i tg attrs d cs m hm
  subst hg
  subst hm'
  simp only [headDisplayL, hshow]
  rw [showDisplay_eq state e n kd hshape hbare]
  by_cases hp : n % 2 = 0 <;>
    cases htv : truthy (lookupS state (String.mk kd)) <;> simp [hp, htv]

/-- Witness for C1 at `data-s-show="!!x"` with `x` truthy. -/
theorem c1_witness :
    headDisplayL [Node.elem 0 "div" [("data-s-show", "!!x")] "" []] = some "" := by
  have h := c1_show_negation_parity [("x", "1")] 0 "div" [("data-s-show", "!!x")]
    "zzz" [] "!!x" 2 ['x'] [Node.elem 0 "div" [("data-s-show", "!!x")] "" []]
    rfl (by decide) (by decide) rfl
  rw [h]
  decide

/-- C2: when the resolved clone has no slot-marker element and the provider's
result is non-empty (a node, or a non-empty array), the call fails hard at
the point of attaching children, and the missing-slot warning is in the log
(it is emitted before the failing append, and also when the provider
returns nothing). -/
theorem c2_missing_slot_failure (tc : List Node) (state : StrMap) (p : Provider)
    (ctr : Nat) (t : List Node) (w : List String) (sub : SubResult)
    (hres : replaceStateDirectives (cloneList ctr tc).1 state = .ok t)
    (hslot : hasSlotList t = false)
    (hp : p t state = (w, sub)) :
    slotWarning ∈ ((renderTmpl tc state (some p) ctr).1).log ∧
    (∀ x, sub = SubResult.one x →
      ((renderTmpl tc state (some p) ctr).1).out = .error ()) ∧
    (∀ x xs, sub = SubResult.arr (x :: xs) →
      ((renderTmpl tc state (some p) ctr).1).out = .error ()) := by
  unfold renderTmpl
  simp only [hres, hp, hslot]
  refine ⟨by simp, ?_, ?_⟩
  · intro x hsub
    subst hsub
    simp [appendSlotList_none t [x] hslot]
  · intro x xs hsub
    subst hsub
    simp [appendSlotList_none t (x :: xs) hslot]

/-- Witness for C2: an empty template with a provider returning one node. -/
theorem c2_witness :
    slotWarning ∈ ((renderTmpl [] []
      (some (fun _ _ => ([], SubResult.one (Node.text "x")))) 0).1).log ∧
    ((renderTmpl [] []
      (some (fun _ _ => ([], SubResult.one (Node.text "x")))) 0).1).out = .error () := by
  have h := c2_missing_slot_failure [] [] (fun _ _ => ([], SubResult.one (Node.text "x")))
    0 [] [] (SubResult.one (Node.text "x")) rfl rfl rfl
  exact ⟨h.1, h.2.1 (Node.text "x") rfl⟩

/-- C3: a returned fragment shares no element identity with the source
template, and two successive calls on the same template (with different
states) share no element identity with each other: the fragments are fully
detached and the calls share no mutable structure. -/
theorem c3_fragment_detached (tc : List Node) (s1 s2 : StrMap) (c : Nat)
    (hc : ∀ i ∈ idsList tc, i < c) (f1 f2 : List Node)
    (h1 : ((renderTmpl tc s1 none c).1).out = .ok f1)
    (h2 : ((renderTmpl tc s2 none ((renderTmpl tc s1 none c).2)).1).out = .ok f2) :
    (∀ i ∈ idsList f1, i ∉ idsList tc) ∧
    (∀ i ∈ idsList f2, i ∉ idsList tc) ∧
    (∀ i ∈ idsList f1, i ∉ idsList f2) := by
  obtain ⟨hctr1, hout1⟩ := renderTmpl_none_spec tc s1 c
  have hres1 := hout1 f1 h1
  obtain ⟨hctr2, hout2⟩ := renderTmpl_none_spec tc s2 ((renderTmpl tc s1 none c).2)
  have hres2 := hout2 f2 h2
  rw [hctr1] at hres2
  obtain ⟨hb1, hb2⟩ := cloneList_bounds tc c
  obtain ⟨hb3, hb4⟩ := cloneList_bounds tc (cloneList c tc).2
  have hsub1 := idsList_resolve_subset s1 _ f1 hres1
  have hsub2 := idsList_resolve_subset s2 _ f2 hres2
  refine ⟨?_, ?_, ?_⟩
  · intro i hi hmem
    have h5 := hb2 i (hsub1 i hi)
    have h6 := hc i hmem
    omega
  · intro i hi hmem
    have h5 := hb4 i (hsub2 i hi)
    have h6 := hc i hmem
    omega
  · intro i hi hmem
    have h5 := hb2 i (hsub1 i hi)
    have h7 := hb4 i (hsub2 i hmem)
    omega

/-- Witness for C3 on a one-element template and two distinct states. -/
theorem c3_witness :
    (∀ i ∈ idsList [Node.elem 6 "d" [] "" []],
      i ∉ idsList [Node.elem 5 "d" [] "" []]) ∧
    (∀ i ∈ idsList [Node.elem 7 "d" [] "" []],
      i ∉ idsList [Node.elem 5 "d" [] "" []]) ∧
    (∀ i ∈ idsList [Node.elem 6 "d" [] "" []],
      i ∉ idsList [Node.elem 7 "d" [] "" []]) :=
  c3_fragment_detached [Node.elem 5 "d" [] "" []] [] [("a", "b")] 6 (by decide)
    [Node.elem 6 "d" [] "" []] [Node.elem 7 "d" [] "" []] rfl rfl

/-- C4: a text-marker (resp. a single attr-marker pair) referencing a key
missing from the state never raises an error: resolution succeeds and the
element's text content (resp. the named attribute's value) becomes exactly
the sentinel string "undefined". -/
theorem c4_missing_key_sentinel (state : StrMap) (i j : Nat) (tg tg2 : String)
    (d d2 : String) (cs : List Node) (te : String) (p : String)
    (nd ed : List Char) (rest : List (List Char))
    (hlook : lookupS state (clearMagic te) = none)
    (hsplit1 : splitOnChar ',' p.data = [p.data])
    (hsplit2 : splitOnChar '=' p.data = nd :: ed :: rest)
    (hlook2 : lookupS state (clearMagic (String.mk ed)) = none) :
    replaceStateDirectives [Node.elem i tg [("data-s-text", te)] d cs] state
      = .ok [Node.elem i tg [("data-s-text", te)] d [Node.text "undefined"]] ∧
    attrOfRes (String.mk nd)
      (replaceStateDirectives [Node.elem j tg2 [("data-s-attr", p)] d2 []] state)
      = some "undefined" := by
  constructor
  · rw [text_elem_resolve]
    have hre : resolveExpr state te = "undefined" := by
      unfold resolveExpr
      rw [hlook]
      rfl
    rw [hre]
    simp [setTextChildren]
  · rw [attr_single_pair state j tg2 d2 p nd ed rest hsplit1 hsplit2]
    have hre : resolveExpr state (String.mk ed) = "undefined" := by
      unfold resolveExpr
      rw [hlook2]
      rfl
    rw [hre]
    simp [attrOfRes, headAttrL, lookupS_setAttr_self]

/-- Witness for C4: missing keys under a text marker and an attr pair. -/
theorem c4_witness :
    replaceStateDirectives [Node.elem 0 "div" [("data-s-text", "missing")] "" []] []
      = .ok [Node.elem 0 "div" [("data-s-text", "missing")] "" [Node.text "undefined"]] ∧
    attrOfRes (String.mk ['x'])
      (replaceStateDirectives [Node.elem 0 "img" [("data-s-attr", "x=y")] "" []] [])
      = some "undefined" :=
  c4_missing_key_sentinel [] 0 0 "div" "img" "" "" [] "missing" "x=y"
    ['x'] ['y'] [] rfl (by decide) (by decide) rfl

/-- C5 (amended): `data-s-attr` takes precedence over `data-s-attrs` exactly
when its value is non-empty; a present-but-empty `data-s-attr` is falsy
under JS `||`, so the `data-s-attrs` list is the one read instead. -/
theorem c5_attr_source_precedence (attrs : StrMap) :
    (∀ a, lookupS attrs "data-s-attr" = some a → a ≠ "" →
      attrSourceOf attrs = some a) ∧
    (∀ b, lookupS attrs "data-s-attr" = some "" →
      lookupS attrs "data-s-attrs" = some b → attrSourceOf attrs = some b) ∧
    (lookupS attrs "data-s-attr" = none →
      attrSourceOf attrs = lookupS attrs "data-s-attrs") := by
  refine ⟨?_, ?_, ?_⟩
  · intro a ha hne
    simp [attrSourceOf, ha, hne]
  · intro b ha hb
    simp [attrSourceOf, ha, hb]
  · intro ha
    simp [attrSourceOf, ha]

/-- Witness for C5 amended: non-empty attr value wins. -/
theorem c5_witness :
    attrSourceOf [("data-s-attr", "a=b"), ("data-s-attrs", "c=d")] = some "a=b" :=
  (c5_attr_source_precedence [("data-s-attr", "a=b"), ("data-s-attrs", "c=d")]).1
    "a=b" rfl (by decide)

/-- Counterexample to C5 as stated: with `data-s-attr=""` present, the
`data-s-attrs` list is read and applied, not the attr-marker's list. -/
theorem c5_counterexample :
    attrSourceOf [("data-s-attr", ""), ("data-s-attrs", "x=k")] = some "x=k" ∧
    attrOfRes "x" (replaceStateDirectives
      [Node.elem 0 "img" [("data-s-attr", ""), ("data-s-attrs", "x=k")] "" []]
      [("k", "v")]) = some "v" ∧
    some "x=k" ≠ some ("" : String) :=
  ⟨rfl, rfl, by decide⟩

/-- C6 (amended): a pair is split on EVERY `'='` and destructuring keeps the
first two segments: for a pair `nd=ed=rest`, the attribute name is `nd` and
the value expression is `ed` — the text between the first and second `'='`,
not everything after the first `'='`. -/
theorem c6_pair_split_between (state : StrMap) (i : Nat) (tg d : String)
    (nd ed rest : List Char)
    (hnd : '=' ∉ nd) (hed : '=' ∉ ed)
    (hcomma : ',' ∉ nd ++ ('=' :: (ed ++ ('=' :: rest)))) :
    splitOnChar '=' (nd ++ ('=' :: (ed ++ ('=' :: rest))))
      = nd :: ed :: splitOnChar '=' rest ∧
    attrOfRes (String.mk nd)
      (replaceStateDirectives
        [Node.elem i tg
          [("data-s-attr", String.mk (nd ++ ('=' :: (ed ++ ('=' :: rest)))))] d []]
        state)
      = some (jsString (lookupS state (clearMagic (String.mk ed)))) := by
  have hsplit : splitOnChar '=' (nd ++ ('=' :: (ed ++ ('=' :: rest))))
      = nd :: ed :: splitOnChar '=' rest := by
    rw [splitOnChar_append '=' nd (ed ++ ('=' :: rest)) hnd,
      splitOnChar_append '=' ed rest hed]
  refine ⟨hsplit, ?_⟩
  have hdata : (String.mk (nd ++ ('=' :: (ed ++ ('=' :: rest))))).data
      = nd ++ ('=' :: (ed ++ ('=' :: rest))) := rfl
  rw [attr_single_pair state i tg d _ nd ed (splitOnChar '=' rest)
    (by rw [hdata]; exact splitOnChar_not_mem ',' _ hcomma)
    (by rw [hdata]; exact hsplit)]
  simp [attrOfRes, headAttrL, lookupS_setAttr_self, resolveExpr]

/-- Witness for C6 amended at the pair `name=a=b`. -/
theorem c6_witness :
    splitOnChar '=' ("name".data ++ ('=' :: ("a".data ++ ('=' :: "b".data))))
      = "name".data :: "a".data :: splitOnChar '=' "b".data ∧
    attrOfRes (String.mk "name".data)
      (replaceStateDirectives
        [Node.elem 0 "div"
          [("data-s-attr",
            String.mk ("name".data ++ ('=' :: ("a".data ++ ('=' :: "b".data)))))]
          "" []]
        [("a=b", "X"), ("a", "Y")])
      = some (jsString (lookupS [("a=b", "X"), ("a", "Y")]
          (clearMagic (String.mk "a".data)))) :=
  c6_pair_split_between [("a=b", "X"), ("a", "Y")] 0 "div" ""
    "name".data "a".data "b".data (by decide) (by decide) (by decide)

/-- Counterexample to C6 as stated: for the pair `name=a=b` the value
expression the code uses is `a` (state gives "Y"), not `a=b` (which the
claim predicts, state gives "X"). -/
theorem c6_counterexample :
    attrOfRes "name" (replaceStateDirectives
      [Node.elem 0 "div" [("data-s-attr", "name=a=b")] "" []]
      [("a=b", "X"), ("a", "Y")]) = some "Y" ∧ ("Y" : String) ≠ "X" :=
  ⟨rfl, by decide⟩

/-- C7 (amended): the context prefix is transparent for every key the
stripping function leaves unchanged (in particular any key not containing
"$ctx."): resolving a text marker `"$ctx." ++ k` has the same observable
effect as resolving marker `k`. -/
theorem c7_ctx_transparency (state : StrMap) (k : String) (i : Nat)
    (tg d : String) (cs : List Node) (hk : clearMagic k = k) :
    clearMagic ("$ctx." ++ k) = clearMagic k ∧
    childrenOfRes (replaceStateDirectives
        [Node.elem i tg [("data-s-text", "$ctx." ++ k)] d cs] state)
      = childrenOfRes (replaceStateDirectives
        [Node.elem i tg [("data-s-text", k)] d cs] state) := by
  have hctx : clearMagic ("$ctx." ++ k) = k := clearMagic_ctx_append k
  refine ⟨by rw [hctx, hk], ?_⟩
  rw [text_elem_resolve, text_elem_resolve]
  simp [childrenOfRes, headChildrenL, resolveExpr, hctx, hk]

/-- Witness for C7 amended at key "greeting". -/
theorem c7_witness :
    clearMagic ("$ctx." ++ "greeting") = clearMagic "greeting" ∧
    childrenOfRes (replaceStateDirectives
        [Node.elem 0 "div" [("data-s-text", "$ctx." ++ "greeting")] "" []]
        [("greeting", "hello")])
      = childrenOfRes (replaceStateDirectives
        [Node.elem 0 "div" [("data-s-text", "greeting")] "" []]
        [("greeting", "hello")]) :=
  c7_ctx_transparency [("greeting", "hello")] "greeting" 0 "div" "" [] rfl

/-- Counterexample to C7 as stated: for the key `a$ctx.b` (which contains
the substring "$ctx."), the prefixed marker resolves the key itself ("X")
while the bare marker resolves the key "ab" ("Y") — observably different
text output. -/
theorem c7_counterexample :
    textOfRes (replaceStateDirectives
      [Node.elem 0 "p" [("data-s-text", "$ctx.a$ctx.b")] "" []]
      [("a$ctx.b", "X"), ("ab", "Y")]) = some "X" ∧
    textOfRes (replaceStateDirectives
      [Node.elem 0 "p" [("data-s-text", "a$ctx.b")] "" []]
      [("a$ctx.b", "X"), ("ab", "Y")]) = some "Y" ∧
    some ("X" : String) ≠ some "Y" :=
  ⟨rfl, rfl, by decide⟩

/-- C8: with a slot present in the resolved clone and a provider returning
an array `ns`, the call succeeds and the first slot element's children are
exactly its previous children followed by `ns`, in order. -/
theorem c8_slot_append (tc : List Node) (state : StrMap) (p : Provider)
    (ctr : Nat) (t : List Node) (w : List String) (ns : List Node)
    (cs0 : List Node)
    (hres : replaceStateDirectives (cloneList ctr tc).1 state = .ok t)
    (hsc : slotChildrenList t = some cs0)
    (hp : p t state = (w, SubResult.arr ns)) :
    ∃ t', ((renderTmpl tc state (some p) ctr).1).out = .ok t' ∧
      slotChildrenList t' = some (cs0 ++ ns) := by
  unfold renderTmpl
  simp only [hres, hp]
  cases ns with
  | nil => exact ⟨t, by simp, by simpa using hsc⟩
  | cons x xs =>
    obtain ⟨t', hap, hsc'⟩ := appendSlotList_children t cs0 (x :: xs) hsc
    exact ⟨t', by simp [hap], hsc'⟩

/-- Witness for C8: two nodes appended into an empty slot. -/
theorem c8_witness :
    ∃ t', ((renderTmpl [Node.elem 3 "div" [("data-s-slot", "")] "" []] []
      (some (fun _ _ => ([], SubResult.arr [Node.text "a", Node.text "b"]))) 0).1).out
        = .ok t' ∧
      slotChildrenList t' = some ([] ++ [Node.text "a", Node.text "b"]) :=
  c8_slot_append [Node.elem 3 "div" [("data-s-slot", "")] "" []] []
    (fun _ _ => ([], SubResult.arr [Node.text "a", Node.text "b"])) 0
    [Node.elem 0 "div" [("data-s-slot", "")] "" []] []
    [Node.text "a", Node.text "b"] [] rfl rfl rfl

/-- C9 (amended): (1) directive resolution is idempotent on fragments none
of whose attr/attrs pairs writes a directive marker attribute (the
counterexample shows a marker-writing pair breaks idempotence as claimed in
general); (2) resolution equals a single fused per-element traversal, so no
element's resolution depends on another element's directives; (3) within
one element the pair list is applied left-to-right and the last pair
writing a name determines that attribute's final value. -/
theorem c9_idempotent_lastwrite :
    (∀ (state : StrMap) (l g : List Node), noMarkerWritesList l = true →
      replaceStateDirectives l state = .ok g →
      replaceStateDirectives g state = .ok g) ∧
    (∀ (state : StrMap) (l : List Node),
      replaceStateDirectives l state = resolveList state l) ∧
    (∀ (state attrs r : StrMap) (ps : List (List Char)) (m : String),
      applyPairsE state attrs ps = .ok r →
      ∃ ws, parsePairs state ps = some ws ∧
        lookupS r m = (match lastWrite ws m with
          | some w => some w
          | none => lookupS attrs m)) := by
  refine ⟨?_, ?_, ?_⟩
  · intro state l g hnw hres
    rw [replaceStateDirectives_eq_resolveList] at hres ⊢
    exact (resolveList_idem state l g hnw hres).1
  · intro state l
    exact replaceStateDirectives_eq_resolveList l state
  · intro state attrs r ps m hap
    rw [applyPairsE_eq_parsePairs] at hap
    cases hps : parsePairs state ps with
    | none => rw [hps] at hap; exact absurd hap (by simp)
    | some ws =>
      rw [hps] at hap
      simp only [Except.ok.injEq] at hap
      subst hap
      exact ⟨ws, rfl, lookupS_applyParsed attrs ws m⟩

/-- Witness for C9 amended: re-resolving an already resolved fragment with a
non-marker attr pair is the identity. -/
theorem c9_witness :
    replaceStateDirectives
      [Node.elem 0 "div" [("data-s-attr", "x=k"), ("x", "v")] "" []] [("k", "v")]
      = .ok [Node.elem 0 "div" [("data-s-attr", "x=k"), ("x", "v")] "" []] :=
  c9_idempotent_lastwrite.1 [("k", "v")]
    [Node.elem 0 "div" [("data-s-attr", "x=k")] "" []]
    [Node.elem 0 "div" [("data-s-attr", "x=k"), ("x", "v")] "" []]
    (by decide) rfl

/-- Counterexample to C9 as stated: an attr pair writing the marker
`data-s-text` makes the second resolution differ observably from the
first (idempotence fails without the marker-write restriction). -/
theorem c9_counterexample :
    replaceStateDirectives
      [Node.elem 0 "div" [("data-s-attr", "data-s-text=k")] "" []]
      [("k", "hi"), ("hi", "there")]
      = .ok [Node.elem 0 "div"
          [("data-s-attr", "data-s-text=k"), ("data-s-text", "hi")] "" []] ∧
    textOfRes (replaceStateDirectives
      [Node.elem 0 "div" [("data-s-attr", "data-s-text=k"), ("data-s-text", "hi")] "" []]
      [("k", "hi"), ("hi", "there")])
      ≠ textOfRes (.ok [Node.elem 0 "div"
          [("data-s-attr", "data-s-text=k"), ("data-s-text", "hi")] "" []]) :=
  ⟨rfl, by decide⟩

/-- C10 (amended): the two `renderTmpl` variants return the same fragment or
failure and advance the clone counter identically, and their warning logs
are permutations of each other (the missing-slot warning follows the
provider's own warnings in the first variant and precedes them in the
second, so the logs agree only up to order). -/
theorem c10_variants_equivalent (tc : List Node) (state : StrMap)
    (p : Provider) (ctr : Nat) :
    ((renderTmpl tc state (some p) ctr).1).out
      = ((renderTmpl2 tc state (some p) ctr).1).out ∧
    ((renderTmpl tc state (some p) ctr).1).log.Perm
      ((renderTmpl2 tc state (some p) ctr).1).log ∧
    (renderTmpl tc state (some p) ctr).2 = (renderTmpl2 tc state (some p) ctr).2 := by
  unfold renderTmpl renderTmpl2
  cases hres : replaceStateDirectives (cloneList ctr tc).1 state with
  | error e => exact ⟨rfl, List.Perm.refl _, rfl⟩
  | ok t => exact ⟨rfl, List.perm_append_comm, rfl⟩

/-- Counterexample to C10 as stated: on a slotless template with a provider
that itself warns and returns nothing, both variants succeed but their
warning sequences differ (the logs are not equal). -/
theorem c10_counterexample :
    ((renderTmpl [] [] (some (fun _ _ => (["w"], SubResult.nil))) 0).1).log
      ≠ ((renderTmpl2 [] [] (some (fun _ _ => (["w"], SubResult.nil))) 0).1).log := by
  decide

end RenderTmpl
